import Mathlib

/-!
Verification development for the WorkSuite work-time and leave ledgers.

The definitions below are a shallow embedding of the TypeScript source:
JavaScript strings are modelled as lists of characters (`JStr`), JavaScript
numbers appearing in minute arithmetic as `Int`, and the decimal-valued
leave arithmetic as `ℚ`.  Nullable values are modelled as `Option`.
-/

/-- A JavaScript string, modelled as its list of characters. -/
abbrev JStr := List Char

/-- Decimal value of a list of digit characters, folding from the left
(the value of `Number(s)` for a string of decimal digits). -/
def digitsToNat (s : JStr) : Nat :=
  s.foldl (fun a c => 10 * a + (c.toNat - 48)) 0

/-- Decimal digit string of a natural number (the characters produced by
JavaScript number-to-string conversion for a non-negative integer). -/
def natDigits (n : Nat) : List Char :=
  if h : n < 10 then [Nat.digitChar n]
  else
    have : n / 10 < n := Nat.div_lt_self (by omega) (by omega)
    natDigits (n / 10) ++ [Nat.digitChar (n % 10)]
termination_by n

/-- `s.split(':')` from JavaScript: split a string at every colon.
Always returns at least one piece. -/
def jsSplitColon : JStr → List JStr
  | [] => [[]]
  | c :: rest =>
    if c = ':' then [] :: jsSplitColon rest
    else
      match jsSplitColon rest with
      | [] => [[c]]
      | h :: t => (c :: h) :: t

/-- `Number(s)` restricted to strings of decimal digits (the only shape the
well-formed `HH:mm` inputs of the claims produce). -/
def jsNumber (s : JStr) : Int :=
  (digitsToNat s : Int)

/-- `String(m).padStart(2, '0')` from JavaScript. -/
def padTwo (s : JStr) : JStr :=
  if s.length < 2 then List.replicate (2 - s.length) '0' ++ s else s

/-- Truthiness of a nullable JavaScript string: `null` and the empty string
are falsy, everything else is truthy. -/
def jsTruthy (s : Option JStr) : Bool :=
  match s with
  | none => false
  | some t => !t.isEmpty

/-- `s || null` from JavaScript on a string: the empty string becomes `null`. -/
def jsOrNull (s : JStr) : Option JStr :=
  if s.isEmpty then none else some s

/-- Leading run of decimal digit characters of a string. -/
def leadingDigits (s : JStr) : JStr :=
  s.takeWhile (fun c => 48 ≤ c.toNat && c.toNat ≤ 57)

/-- `parseInt(s) || 0` from JavaScript: parse a leading optionally signed
decimal integer, with `0` when nothing parses (leading whitespace and a
leading plus sign are outside the scope of every claim). -/
def jsParseIntOr0 (s : JStr) : Int :=
  match s with
  | '-' :: rest =>
    if (leadingDigits rest).isEmpty then 0 else -(digitsToNat (leadingDigits rest) : Int)
  | _ =>
    if (leadingDigits s).isEmpty then 0 else (digitsToNat (leadingDigits s) : Int)

/-- Minute-of-day value of an `HH:mm` string, as computed by the source via
`const [h, m] = s.split(':').map(Number)` and `h * 60 + m`.  A string
without a colon gives its numeric value times 60 (`m` would be `undefined`
in the source; no claim exercises that shape). -/
def parseHM (s : JStr) : Int :=
  match jsSplitColon s with
  | h :: m :: _ => jsNumber h * 60 + jsNumber m
  | h :: [] => jsNumber h * 60
  | [] => 0

/-- `computeWorkedMinutes` from `src/features/worktime/api.ts`: minutes
worked from start and end time strings (`HH:mm`) minus the break.  The
source guard is `if (!start || !end) return 0`.  The second source
parameter is named `end`, a reserved word in Lean, hence `stop`. -/
def computeWorkedMinutes (start stop : Option JStr) (breakMin : Int) : Int :=
  if !jsTruthy start || !jsTruthy stop then 0
  else
    let s := parseHM (start.getD [])
    let e := parseHM (stop.getD [])
    max 0 ((e - s) - breakMin)

/-- `normMinutes` from `src/features/worktime/api.ts`: norm minutes for a
given ISO weekday (1 = Monday .. 7 = Sunday). -/
def normMinutes (isoWeekday : Int) : Int :=
  if 1 ≤ isoWeekday ∧ isoWeekday ≤ 4 then 540
  else if isoWeekday = 5 then 240
  else 0

/-- `formatMinutes` from `src/features/worktime/api.ts`: format minutes as
`h:mm` with a sign prefix only when negative. -/
def formatMinutes (min : Int) : JStr :=
  let sign : JStr := if min < 0 then ['-'] else []
  let abs := min.natAbs
  let h := abs / 60
  let m := abs % 60
  sign ++ natDigits h ++ [':'] ++ padTwo (natDigits m)

/-- A stored work log row (`V2WorkLog` in `src/features/worktime/api.ts`).
The bookkeeping columns `id`, `user_id`, `created_at`, `updated_at` enter no
computation of the claims and are omitted. -/
structure V2WorkLog where
  log_date : JStr
  start_time : Option JStr
  end_time : Option JStr
  break_minutes : Int
  notes : Option JStr
deriving DecidableEq, Repr

/-- Per-row input state of the time-tracking page (`RowState`).  The source
field `end` is a reserved word in Lean, hence `stop`. -/
structure RowState where
  start : JStr
  stop : JStr
  breakMin : JStr
  notes : JStr
  saving : Bool
  saved : Bool
deriving DecidableEq, Repr

/-- `deltaForDate` from the time-tracking page: `null` when the row is
absent or both time fields are empty, otherwise worked minutes minus the
norm for the ISO weekday. -/
def deltaForDate (rows : JStr → Option RowState) (dateStr : JStr) (isoDay : Int) :
    Option Int :=
  match rows dateStr with
  | none => none
  | some r =>
    if r.start.isEmpty && r.stop.isEmpty then none
    else
      some (computeWorkedMinutes (jsOrNull r.start) (jsOrNull r.stop)
        (jsParseIntOr0 r.breakMin) - normMinutes isoDay)

/-- `workedForDate` from the time-tracking page: 0 for an absent row, else
the worked minutes of the row. -/
def workedForDate (rows : JStr → Option RowState) (dateStr : JStr) : Int :=
  match rows dateStr with
  | none => 0
  | some r =>
    computeWorkedMinutes (jsOrNull r.start) (jsOrNull r.stop) (jsParseIntOr0 r.breakMin)

/-- `weekWorked` from the time-tracking page, over the week days given as
(date string, ISO weekday) pairs. -/
def weekWorked (rows : JStr → Option RowState) (weekDays : List (JStr × Int)) : Int :=
  weekDays.foldl (fun s d => s + workedForDate rows d.1) 0

/-- `weekNorm` from the time-tracking page: the norm summed over all week
days regardless of entries. -/
def weekNorm (weekDays : List (JStr × Int)) : Int :=
  weekDays.foldl (fun s d => s + normMinutes d.2) 0

/-- `weekDelta` from the time-tracking page. -/
def weekDelta (rows : JStr → Option RowState) (weekDays : List (JStr × Int)) : Int :=
  weekWorked rows weekDays - weekNorm weekDays

/-- `weekHasEntries` from the time-tracking page:
`r && (r.start || r.end)` on some day of the week. -/
def weekHasEntries (rows : JStr → Option RowState) (weekDays : List (JStr × Int)) :
    Bool :=
  weekDays.any (fun d =>
    match rows d.1 with
    | some r => !r.start.isEmpty || !r.stop.isEmpty
    | none => false)

/-- One calendar day of the year grid, as supplied by the date library:
its `yyyy-MM-dd` date string, its ISO year-week key (`RRRR-II`), its
two-digit week label (`II`), and its ISO weekday. -/
structure DayCal where
  ds : JStr
  wk : JStr
  ii : JStr
  isoDay : Int
deriving DecidableEq, Repr

/-- A day record pushed into a week bucket by `yearByWeek`:
`{ date, worked, norm }`. -/
structure DayRec where
  date : JStr
  worked : Int
  norm : Int
deriving DecidableEq, Repr

/-- A week bucket under construction: `{ weekNum, days }` keyed by the ISO
year-week string. -/
structure WeekBucket where
  key : JStr
  weekNum : JStr
  days : List DayRec
deriving DecidableEq, Repr

/-- The aggregated week produced by `yearByWeek`:
`{ ...w, totalWorked, totalNorm, delta, hasEntries }`. -/
structure WeekAgg where
  key : JStr
  weekNum : JStr
  days : List DayRec
  totalWorked : Int
  totalNorm : Int
  delta : Option Int
  hasEntries : Bool
deriving DecidableEq, Repr

/-- The day record built inside the `allDays.forEach` loop of `yearByWeek`:
worked minutes from the log map when a log exists for the date, else 0;
norm from the ISO weekday. -/
def mkDayRec (logMap : JStr → Option V2WorkLog) (d : DayCal) : DayRec :=
  { date := d.ds
    worked :=
      match logMap d.ds with
      | some log => computeWorkedMinutes log.start_time log.end_time log.break_minutes
      | none => 0
    norm := normMinutes d.isoDay }

/-- Insert a day record into the bucket list: append to the bucket with the
matching ISO year-week key, or open a new bucket at the end (the source
keeps first-seen bucket order via `weekMap` and `weeks.push`). -/
def addDay (bs : List WeekBucket) (d : DayCal) (rec : DayRec) : List WeekBucket :=
  match bs with
  | [] => [⟨d.wk, d.ii, [rec]⟩]
  | b :: rest =>
    if b.key = d.wk then ⟨b.key, b.weekNum, b.days ++ [rec]⟩ :: rest
    else b :: addDay rest d rec

/-- Group the weekday sequence of the year into ISO week buckets, computing
each day record from the log map on the way (the `allDays.forEach` loop). -/
def groupDays (logMap : JStr → Option V2WorkLog) (allDays : List DayCal) :
    List WeekBucket :=
  allDays.foldl (fun bs d => addDay bs d (mkDayRec logMap d)) []

/-- The `weeks.map` aggregation step of `yearByWeek`: per-week totals,
`hasEntries = days.some(d => d.worked > 0)`, and
`delta = hasEntries ? totalWorked - totalNorm : null`. -/
def aggregateWeek (w : WeekBucket) : WeekAgg :=
  let totalWorked := w.days.foldl (fun s d => s + d.worked) 0
  let totalNorm := w.days.foldl (fun s d => s + d.norm) 0
  let hasEntries := w.days.any (fun d => decide (0 < d.worked))
  let delta := if hasEntries then some (totalWorked - totalNorm) else none
  ⟨w.key, w.weekNum, w.days, totalWorked, totalNorm, delta, hasEntries⟩

/-- `yearByWeek` from the time-tracking page: bucket the weekdays of the
year into ISO weeks and aggregate each bucket.  The day sequence (already
filtered to ISO weekdays 1..5 and carrying its ISO week keys) comes from
the external date library and is a parameter here. -/
def yearByWeek (logMap : JStr → Option V2WorkLog) (allDays : List DayCal) :
    List WeekAgg :=
  (groupDays logMap allDays).map aggregateWeek

/-- `cumulativeByWeek` from the time-tracking page:
`carryOverMinutes + slice(0, i+1).reduce((s, w) => s + (w.delta ?? 0), 0)`
for each week index `i`. -/
def cumulativeByWeek (carryOverMinutes : Int) (weeks : List WeekAgg) : List Int :=
  (List.range weeks.length).map (fun i =>
    carryOverMinutes + (weeks.take (i + 1)).foldl (fun s w => s + w.delta.getD 0) 0)

/-- The year-table rendering of a week total
(`w.hasEntries ? formatMinutes(w.totalWorked) : '—'`). -/
def displayTotalWorked (w : WeekAgg) : JStr :=
  if w.hasEntries then formatMinutes w.totalWorked else ['—']

/-- A stored leave balance row, nullable field by field (the source reads
every field through `balance?.field ?? default`).  Decimal values are
modelled as rationals. -/
structure V2LeaveBalance where
  hours_per_day : Option ℚ
  base_days : Option ℚ
  purchased_days : Option ℚ
  carry_over_hours : Option ℚ
  manual_adjustment_hours : Option ℚ
deriving DecidableEq

/-- A stored leave entry row (`entry_date`, nullable `hours`, description). -/
structure V2LeaveEntry where
  entry_date : JStr
  hours : Option ℚ
  description : Option JStr
deriving DecidableEq

/-- The result record of `computeLeaveStats`. -/
structure LeaveStats where
  totalEntitlementHours : ℚ
  takenHours : ℚ
  remainingHours : ℚ
  totalEntitlementDays : ℚ
  takenDays : ℚ
  remainingDays : ℚ
deriving DecidableEq

/-- `computeLeaveStats` from `src/features/leave/api.ts`. -/
def computeLeaveStats (balance : Option V2LeaveBalance) (entries : List V2LeaveEntry) :
    LeaveStats :=
  let hoursPerDay := (balance.bind fun b => b.hours_per_day).getD 8
  let baseDays := (balance.bind fun b => b.base_days).getD 25
  let purchasedDays := (balance.bind fun b => b.purchased_days).getD 0
  let carryOverHours := (balance.bind fun b => b.carry_over_hours).getD 0
  let manualAdjHours := (balance.bind fun b => b.manual_adjustment_hours).getD 0
  let totalEntitlementDays := baseDays + purchasedDays
  let totalEntitlementHours := totalEntitlementDays * hoursPerDay + carryOverHours + manualAdjHours
  let takenHours := entries.foldl (fun s e => s + e.hours.getD 0) 0
  let takenDays := takenHours / hoursPerDay
  let remainingHours := totalEntitlementHours - takenHours
  let remainingDays := remainingHours / hoursPerDay
  ⟨totalEntitlementHours, takenHours, remainingHours,
    totalEntitlementDays, takenDays, remainingDays⟩

/-- The canonical well-formed zero-padded `HH:mm` string for an
hour/minute pair, used to quantify over well-formed time strings. -/
def timeString (h m : Nat) : JStr :=
  [Nat.digitChar (h / 10), Nat.digitChar (h % 10), ':',
   Nat.digitChar (m / 10), Nat.digitChar (m % 10)]

/-- Formatter written from the words of the specification: a minus sign
prefix only when negative, then `floor(|m| / 60)`, a colon, and
`|m| mod 60` zero-padded to exactly two digits.  To be compared with
`formatMinutes`. -/
def specFormatMinutes (min : Int) : JStr :=
  (if min < 0 then ['-'] else []) ++ natDigits (min.natAbs / 60)
    ++ [':'] ++ [Nat.digitChar (min.natAbs % 60 / 10), Nat.digitChar (min.natAbs % 60 % 10)]

/-- Re-parse the `H:MM` part of a formatted minute string as
`hours * 60 + minutes`, following the round-trip description of the
specification. -/
def reparseHM (s : JStr) : Int :=
  match jsSplitColon s with
  | h :: m :: _ => (digitsToNat h : Int) * 60 + (digitsToNat m : Int)
  | _ => 0

/-- Re-parse a formatted minute string as sign times `hours * 60 + minutes`,
following the round-trip description of the specification. -/
def reparseMinutes (s : JStr) : Int :=
  match s with
  | [] => 0
  | c :: rest => if c = '-' then -(reparseHM rest) else reparseHM (c :: rest)

/-! ### Helper lemmas: digits and digit strings -/

theorem digitChar_toNat : ∀ d < 10, (Nat.digitChar d).toNat = 48 + d := by decide

theorem digitChar_ne_colon : ∀ d < 10, Nat.digitChar d ≠ ':' := by decide

theorem digitChar_ne_dash : ∀ d < 10, Nat.digitChar d ≠ '-' := by decide

theorem digitChar_isDigit : ∀ d < 10, 48 ≤ (Nat.digitChar d).toNat ∧ (Nat.digitChar d).toNat ≤ 57 := by
  decide

theorem natDigits_ne_nil (n : Nat) : natDigits n ≠ [] := by
  rw [natDigits]
  split <;> simp

theorem natDigits_all_digit (n : Nat) :
    ∀ c ∈ natDigits n, 48 ≤ c.toNat ∧ c.toNat ≤ 57 := by
  induction n using Nat.strong_induction_on with
  | _ n ih =>
    rw [natDigits]
    split
    · intro c hc
      simp only [List.mem_singleton] at hc
      subst hc
      exact digitChar_isDigit n (by omega)
    · intro c hc
      rcases List.mem_append.mp hc with h | h
      · exact ih (n / 10) (Nat.div_lt_self (by omega) (by omega)) c h
      · simp only [List.mem_singleton] at h
        subst h
        exact digitChar_isDigit (n % 10) (Nat.mod_lt _ (by omega))

theorem digitsToNat_append_singleton (s : JStr) (c : Char) :
    digitsToNat (s ++ [c]) = 10 * digitsToNat s + (c.toNat - 48) := by
  simp [digitsToNat, List.foldl_append]

theorem digitsToNat_natDigits (n : Nat) : digitsToNat (natDigits n) = n := by
  induction n using Nat.strong_induction_on with
  | _ n ih =>
    rw [natDigits]
    split
    · simp only [digitsToNat, List.foldl_cons, List.foldl_nil]
      rw [digitChar_toNat n (by omega)]
      omega
    · rw [digitsToNat_append_singleton,
        ih (n / 10) (Nat.div_lt_self (by omega) (by omega)),
        digitChar_toNat (n % 10) (Nat.mod_lt _ (by omega))]
      omega

theorem digitsToNat_replicate_zero (k : Nat) (s : JStr) :
    digitsToNat (List.replicate k '0' ++ s) = digitsToNat s := by
  induction k with
  | zero => simp
  | succ k ih =>
    simpa [digitsToNat, List.replicate_succ] using ih

theorem digitsToNat_padTwo (s : JStr) : digitsToNat (padTwo s) = digitsToNat s := by
  unfold padTwo
  split
  · exact digitsToNat_replicate_zero _ s
  · rfl

theorem padTwo_all_digit (s : JStr) (hs : ∀ c ∈ s, 48 ≤ c.toNat ∧ c.toNat ≤ 57) :
    ∀ c ∈ padTwo s, 48 ≤ c.toNat ∧ c.toNat ≤ 57 := by
  unfold padTwo
  split
  · intro c hc
    rcases List.mem_append.mp hc with h | h
    · rcases List.eq_of_mem_replicate h with rfl
      decide
    · exact hs c h
  · exact hs

/-! ### Helper lemmas: colon splitting -/

theorem jsSplitColon_no_colon (s : JStr) (hs : ∀ c ∈ s, c ≠ ':') :
    jsSplitColon s = [s] := by
  induction s with
  | nil => rfl
  | cons c rest ih =>
    have hc : c ≠ ':' := hs c (List.mem_cons_self _ _)
    rw [jsSplitColon, if_neg hc, ih (fun x hx => hs x (List.mem_cons_of_mem _ hx))]

theorem jsSplitColon_append (a b : JStr) (ha : ∀ c ∈ a, c ≠ ':') :
    jsSplitColon (a ++ ':' :: b) = a :: jsSplitColon b := by
  induction a with
  | nil => simp [jsSplitColon]
  | cons c rest ih =>
    have hc : c ≠ ':' := ha c (List.mem_cons_self _ _)
    rw [List.cons_append, jsSplitColon, if_neg hc,
      ih (fun x hx => ha x (List.mem_cons_of_mem _ hx))]

theorem parseHM_timeString (h m : Nat) (hh : h < 100) (hm : m < 100) :
    parseHM (timeString h m) = (h : Int) * 60 + m := by
  have h1 : h / 10 < 10 := by omega
  have h2 : h % 10 < 10 := by omega
  have h3 : m / 10 < 10 := by omega
  have h4 : m % 10 < 10 := by omega
  have hsplit :
      jsSplitColon (timeString h m) =
        [[Nat.digitChar (h / 10), Nat.digitChar (h % 10)],
         [Nat.digitChar (m / 10), Nat.digitChar (m % 10)]] := by
    have := jsSplitColon_append
      [Nat.digitChar (h / 10), Nat.digitChar (h % 10)]
      [Nat.digitChar (m / 10), Nat.digitChar (m % 10)]
      (by
        intro c hc
        simp only [List.mem_cons, List.not_mem_nil, or_false] at hc
        rcases hc with rfl | rfl
        · exact digitChar_ne_colon _ h1
        · exact digitChar_ne_colon _ h2)
    rw [timeString]
    rw [show ([Nat.digitChar (h / 10), Nat.digitChar (h % 10), ':',
        Nat.digitChar (m / 10), Nat.digitChar (m % 10)] : JStr) =
        [Nat.digitChar (h / 10), Nat.digitChar (h % 10)] ++ ':' ::
        [Nat.digitChar (m / 10), Nat.digitChar (m % 10)] from rfl]
    rw [this]
    rw [jsSplitColon_no_colon _ (by
      intro c hc
      simp only [List.mem_cons, List.not_mem_nil, or_false] at hc
      rcases hc with rfl | rfl
      · exact digitChar_ne_colon _ h3
      · exact digitChar_ne_colon _ h4)]
  rw [parseHM, hsplit]
  simp only [jsNumber, digitsToNat, List.foldl_cons, List.foldl_nil]
  rw [digitChar_toNat _ h1, digitChar_toNat _ h2,
    digitChar_toNat _ h3, digitChar_toNat _ h4]
  push_cast
  omega

/-! ### Helper lemmas: folds, grouping and aggregation -/

theorem foldl_add_eq_sum {α M : Type} [AddCommMonoid M] (f : α → M) (l : List α) (a : M) :
    l.foldl (fun s x => s + f x) a = a + (l.map f).sum := by
  induction l generalizing a with
  | nil => simp
  | cons x xs ih => simp [ih, add_assoc]

theorem addDay_forall (Q : DayRec → Prop) (bs : List WeekBucket) (d : DayCal)
    (rec : DayRec) (hbs : ∀ b ∈ bs, ∀ r ∈ b.days, Q r) (hrec : Q rec) :
    ∀ b ∈ addDay bs d rec, ∀ r ∈ b.days, Q r := by
  induction bs with
  | nil =>
    intro b hb r hr
    simp only [addDay, List.mem_singleton] at hb
    subst hb
    simp only [List.mem_singleton] at hr
    subst hr
    exact hrec
  | cons b0 rest ih =>
    intro b hb r hr
    rw [addDay] at hb
    split at hb
    · rcases List.mem_cons.mp hb with rfl | hb
      · rcases List.mem_append.mp hr with h | h
        · exact hbs b0 (List.mem_cons_self _ _) r h
        · simp only [List.mem_singleton] at h
          subst h
          exact hrec
      · exact hbs b (List.mem_cons_of_mem _ hb) r hr
    · rcases List.mem_cons.mp hb with rfl | hb
      · exact hbs b (List.mem_cons_self _ _) r hr
      · exact ih (fun x hx => hbs x (List.mem_cons_of_mem _ hx)) b hb r hr

theorem groupDays_foldl_forall (logMap : JStr → Option V2WorkLog)
    (Q : DayRec → Prop) (ds : List DayCal) :
    ∀ bs : List WeekBucket, (∀ b ∈ bs, ∀ r ∈ b.days, Q r) →
      (∀ d ∈ ds, Q (mkDayRec logMap d)) →
      ∀ b ∈ ds.foldl (fun bs d => addDay bs d (mkDayRec logMap d)) bs,
        ∀ r ∈ b.days, Q r := by
  induction ds with
  | nil =>
    intro bs hbs _
    simpa using hbs
  | cons d ds ih =>
    intro bs hbs hds
    simp only [List.foldl_cons]
    exact ih _ (addDay_forall Q bs d _ hbs (hds d (List.mem_cons_self _ _)))
      (fun x hx => hds x (List.mem_cons_of_mem _ hx))

theorem groupDays_days_from (logMap : JStr → Option V2WorkLog) (days : List DayCal) :
    ∀ b ∈ groupDays logMap days, ∀ r ∈ b.days, ∃ d ∈ days, r = mkDayRec logMap d :=
  groupDays_foldl_forall logMap _ days [] (by simp) (fun d hd => ⟨d, hd, rfl⟩)

theorem aggregateWeek_days (b : WeekBucket) : (aggregateWeek b).days = b.days := rfl

theorem aggregateWeek_totalWorked (b : WeekBucket) :
    (aggregateWeek b).totalWorked = (b.days.map (fun r => r.worked)).sum := by
  show b.days.foldl (fun s d => s + d.worked) 0 = _
  rw [foldl_add_eq_sum]
  ring

theorem aggregateWeek_totalNorm (b : WeekBucket) :
    (aggregateWeek b).totalNorm = (b.days.map (fun r => r.norm)).sum := by
  show b.days.foldl (fun s d => s + d.norm) 0 = _
  rw [foldl_add_eq_sum]
  ring

theorem aggregateWeek_hasEntries (b : WeekBucket) :
    (aggregateWeek b).hasEntries = true ↔ ∃ r ∈ b.days, 0 < r.worked := by
  show b.days.any _ = true ↔ _
  simp [List.any_eq_true]

theorem aggregateWeek_delta (b : WeekBucket) :
    (aggregateWeek b).delta =
      (if (aggregateWeek b).hasEntries then
        some ((aggregateWeek b).totalWorked - (aggregateWeek b).totalNorm) else none) := rfl

theorem yearByWeek_mem (logMap : JStr → Option V2WorkLog) (days : List DayCal)
    (w : WeekAgg) (hw : w ∈ yearByWeek logMap days) :
    ∃ b ∈ groupDays logMap days, w = aggregateWeek b := by
  rcases List.mem_map.mp hw with ⟨b, hb, rfl⟩
  exact ⟨b, hb, rfl⟩

/-- Master characterization of the aggregated weeks of `yearByWeek`: the
totals are sums over the bucket days, `hasEntries` detects a positive
worked value, `delta` is total minus norm exactly on weeks with entries,
and every bucket day record comes from a calendar day via `mkDayRec`. -/
theorem yearByWeek_spec (logMap : JStr → Option V2WorkLog) (days : List DayCal) :
    ∀ w ∈ yearByWeek logMap days,
      w.totalWorked = (w.days.map (fun r => r.worked)).sum ∧
      w.totalNorm = (w.days.map (fun r => r.norm)).sum ∧
      (w.hasEntries = true ↔ ∃ r ∈ w.days, 0 < r.worked) ∧
      w.delta = (if w.hasEntries then some (w.totalWorked - w.totalNorm) else none) ∧
      (∀ r ∈ w.days, ∃ d ∈ days, r = mkDayRec logMap d) := by
  intro w hw
  rcases yearByWeek_mem logMap days w hw with ⟨b, hb, rfl⟩
  refine ⟨?_, ?_, ?_, aggregateWeek_delta b, ?_⟩
  · rw [aggregateWeek_days, aggregateWeek_totalWorked]
  · rw [aggregateWeek_days, aggregateWeek_totalNorm]
  · rw [aggregateWeek_days]
    exact aggregateWeek_hasEntries b
  · rw [aggregateWeek_days]
    exact groupDays_days_from logMap days b hb

theorem cumulativeByWeek_length (c : Int) (ws : List WeekAgg) :
    (cumulativeByWeek c ws).length = ws.length := by
  simp [cumulativeByWeek]

theorem cumulativeByWeek_getElem (c : Int) (ws : List WeekAgg) (i : Nat)
    (h : i < (cumulativeByWeek c ws).length) :
    (cumulativeByWeek c ws)[i] =
      c + ((ws.take (i + 1)).map (fun w => w.delta.getD 0)).sum := by
  simp only [cumulativeByWeek, List.getElem_map, List.getElem_range,
    foldl_add_eq_sum, zero_add]

/-! ### Helper lemmas: minute formatting -/

theorem natDigits_lt_ten (n : Nat) (h : n < 10) : natDigits n = [Nat.digitChar n] := by
  rw [natDigits, dif_pos h]

theorem padTwo_natDigits (n : Nat) (h : n < 100) :
    padTwo (natDigits n) = [Nat.digitChar (n / 10), Nat.digitChar (n % 10)] := by
  rcases lt_or_le n 10 with h10 | h10
  · rw [natDigits_lt_ten n h10, padTwo]
    have hdiv : n / 10 = 0 := by omega
    have hmod : n % 10 = n := by omega
    rw [hdiv, hmod]
    simp [List.replicate]
    rfl
  · rw [natDigits, dif_neg (by omega), natDigits_lt_ten (n / 10) (by omega), padTwo]
    simp

theorem all_digit_ne_colon {s : JStr}
    (hs : ∀ c ∈ s, 48 ≤ c.toNat ∧ c.toNat ≤ 57) : ∀ c ∈ s, c ≠ ':' := by
  intro c hc heq
  have hv := hs c hc
  subst heq
  revert hv
  decide

theorem reparseHM_parts (a b : JStr)
    (ha : ∀ c ∈ a, 48 ≤ c.toNat ∧ c.toNat ≤ 57)
    (hb : ∀ c ∈ b, 48 ≤ c.toNat ∧ c.toNat ≤ 57) :
    reparseHM (a ++ ':' :: b) = (digitsToNat a : Int) * 60 + (digitsToNat b : Int) := by
  have h1 : jsSplitColon (a ++ ':' :: b) = [a, b] := by
    rw [jsSplitColon_append a b (all_digit_ne_colon ha),
      jsSplitColon_no_colon b (all_digit_ne_colon hb)]
  simp [reparseHM, h1]

theorem reparse_formatMinutes (m : Int) : reparseMinutes (formatMinutes m) = m := by
  have hd : ∀ c ∈ natDigits (m.natAbs / 60), 48 ≤ c.toNat ∧ c.toNat ≤ 57 :=
    natDigits_all_digit _
  have hb : ∀ c ∈ padTwo (natDigits (m.natAbs % 60)), 48 ≤ c.toNat ∧ c.toNat ≤ 57 :=
    padTwo_all_digit _ (natDigits_all_digit _)
  have hHM :
      reparseHM (natDigits (m.natAbs / 60) ++ ':' :: padTwo (natDigits (m.natAbs % 60))) =
        (m.natAbs : Int) := by
    rw [reparseHM_parts _ _ hd hb, digitsToNat_natDigits, digitsToNat_padTwo,
      digitsToNat_natDigits]
    push_cast
    omega
  rcases lt_or_le m 0 with hm | hm
  · have hfm : formatMinutes m =
        '-' :: (natDigits (m.natAbs / 60) ++ ':' :: padTwo (natDigits (m.natAbs % 60))) := by
      simp [formatMinutes, hm]
    rw [hfm]
    simp only [reparseMinutes, if_true, eq_self_iff_true, hHM]
    omega
  · obtain ⟨c0, t0, h0⟩ := List.exists_cons_of_ne_nil (natDigits_ne_nil (m.natAbs / 60))
    have hc0 : c0 ≠ '-' := by
      have hv := hd c0 (h0 ▸ List.mem_cons_self _ _)
      intro h
      subst h
      revert hv
      decide
    have hfm : formatMinutes m =
        c0 :: (t0 ++ ':' :: padTwo (natDigits (m.natAbs % 60))) := by
      simp [formatMinutes, not_lt.mpr hm, h0]
    rw [hfm]
    simp only [reparseMinutes, hc0, if_false, if_neg hc0]
    have hre : c0 :: (t0 ++ ':' :: padTwo (natDigits (m.natAbs % 60))) =
        natDigits (m.natAbs / 60) ++ ':' :: padTwo (natDigits (m.natAbs % 60)) := by
      rw [h0]
      rfl
    rw [hre, hHM]
    omega

theorem formatMinutes_eq_spec (m : Int) : formatMinutes m = specFormatMinutes m := by
  have h60 : m.natAbs % 60 < 100 := by omega
  simp only [formatMinutes, specFormatMinutes, padTwo_natDigits _ h60]

/-! ### Concrete example data for the claims -/

/-- `weekHasEntries` style test on a looked-up log: the entry exists and has
a truthy start or end time (the has-entries criterion the specification
describes). -/
def entryHasStartOrEnd (o : Option V2WorkLog) : Bool :=
  match o with
  | some log => jsTruthy log.start_time || jsTruthy log.end_time
  | none => false

/-- Monday log worked 600 minutes (norm 540, week delta +60). -/
def logPlus60 : V2WorkLog :=
  ⟨("2024-01-01").data, some (("09:00").data), some (("19:00").data), 0, none⟩

/-- Monday log worked 510 minutes (norm 540, week delta -30). -/
def logMinus30 : V2WorkLog :=
  ⟨("2024-01-08").data, some (("09:00").data), some (("17:30").data), 0, none⟩

/-- Monday log worked exactly the 540-minute norm. -/
def logAtNorm : V2WorkLog :=
  ⟨("2024-01-01").data, some (("09:00").data), some (("18:00").data), 0, none⟩

/-- Monday log with a logged start and end but zero worked minutes. -/
def logZeroSpan : V2WorkLog :=
  ⟨("2024-01-01").data, some (("09:00").data), some (("09:00").data), 0, none⟩

/-- Log map holding `logPlus60` and `logMinus30` on consecutive Mondays. -/
def mapTwoWeeks (ds : JStr) : Option V2WorkLog :=
  if ds = ("2024-01-01").data then some logPlus60
  else if ds = ("2024-01-08").data then some logMinus30
  else none

/-- Two Mondays in consecutive ISO weeks. -/
def daysTwoWeeks : List DayCal :=
  [⟨("2024-01-01").data, ("2024-01").data, ("01").data, 1⟩,
   ⟨("2024-01-08").data, ("2024-02").data, ("02").data, 1⟩]

/-- Log map holding only `logPlus60`; the second week has no entries. -/
def mapGap (ds : JStr) : Option V2WorkLog :=
  if ds = ("2024-01-01").data then some logPlus60 else none

/-- Log map holding only `logAtNorm` on the Monday. -/
def mapMondayNorm (ds : JStr) : Option V2WorkLog :=
  if ds = ("2024-01-01").data then some logAtNorm else none

/-- Log map holding only the zero-worked entry `logZeroSpan`. -/
def mapZeroSpan (ds : JStr) : Option V2WorkLog :=
  if ds = ("2024-01-01").data then some logZeroSpan else none

/-- The five ISO weekdays Monday to Friday of one ISO week. -/
def daysOneWeek : List DayCal :=
  [⟨("2024-01-01").data, ("2024-01").data, ("01").data, 1⟩,
   ⟨("2024-01-02").data, ("2024-01").data, ("01").data, 2⟩,
   ⟨("2024-01-03").data, ("2024-01").data, ("01").data, 3⟩,
   ⟨("2024-01-04").data, ("2024-01").data, ("01").data, 4⟩,
   ⟨("2024-01-05").data, ("2024-01").data, ("01").data, 5⟩]

/-! ### Claim theorems -/

/-- C8: for every ISO weekday `w` in 1..7, `normMinutes w` is 540 on
Monday to Thursday (1..4), 240 on Friday (5), and 0 on Saturday and
Sunday (6, 7). -/
theorem normMinutes_policy (w : Int) :
    (1 ≤ w → w ≤ 4 → normMinutes w = 540) ∧
    (w = 5 → normMinutes w = 240) ∧
    (w = 6 ∨ w = 7 → normMinutes w = 0) := by
  refine ⟨fun h1 h2 => ?_, fun h => ?_, fun h => ?_⟩
  · rw [normMinutes, if_pos ⟨h1, h2⟩]
  · subst h
    decide
  · rcases h with rfl | rfl <;> decide

theorem normMinutes_policy_witness :
    normMinutes 1 = 540 ∧ normMinutes 4 = 540 ∧ normMinutes 5 = 240 ∧
    normMinutes 6 = 0 ∧ normMinutes 7 = 0 :=
  ⟨(normMinutes_policy 1).1 (by decide) (by decide),
   (normMinutes_policy 4).1 (by decide) (by decide),
   (normMinutes_policy 5).2.1 rfl,
   (normMinutes_policy 6).2.2 (Or.inl rfl),
   (normMinutes_policy 7).2.2 (Or.inr rfl)⟩

/-- C9: `computeWorkedMinutes` treats the empty string exactly like an
absent time: an empty start or end string (like a `null` one) short-circuits
the guard and returns 0 without reaching the parse-and-subtract path. -/
theorem computeWorkedMinutes_empty_like_absent (s e : Option JStr) (b : Int) :
    computeWorkedMinutes (some []) e b = 0 ∧
    computeWorkedMinutes s (some []) b = 0 ∧
    computeWorkedMinutes none e b = 0 ∧
    computeWorkedMinutes s none b = 0 := by
  refine ⟨?_, ?_, ?_, ?_⟩ <;> simp [computeWorkedMinutes, jsTruthy]

/-- C4: on well-formed `HH:mm` inputs and a non-negative break,
`computeWorkedMinutes` is `max 0 (raw - break)` for the raw end-minus-start
span, coincides with the double-clamped description of section 3, is never
negative, yields 0 when the end lies before the start, and returns 0 for an
absent start or end. -/
theorem computeWorkedMinutes_formula (sh sm eh em : Nat) (b : Int)
    (hsh : sh < 24) (hsm : sm < 60) (heh : eh < 24) (hem : em < 60) (hb : 0 ≤ b) :
    computeWorkedMinutes (some (timeString sh sm)) (some (timeString eh em)) b =
      max 0 (((eh : Int) * 60 + em - ((sh : Int) * 60 + sm)) - b) ∧
    computeWorkedMinutes (some (timeString sh sm)) (some (timeString eh em)) b =
      max 0 (max 0 ((eh : Int) * 60 + em - ((sh : Int) * 60 + sm)) - b) ∧
    0 ≤ computeWorkedMinutes (some (timeString sh sm)) (some (timeString eh em)) b ∧
    ((eh : Int) * 60 + em < (sh : Int) * 60 + sm →
      computeWorkedMinutes (some (timeString sh sm)) (some (timeString eh em)) b = 0) ∧
    (∀ x, computeWorkedMinutes none x b = 0 ∧ computeWorkedMinutes x none b = 0) := by
  have hmain :
      computeWorkedMinutes (some (timeString sh sm)) (some (timeString eh em)) b =
        max 0 (((eh : Int) * 60 + em - ((sh : Int) * 60 + sm)) - b) := by
    rw [computeWorkedMinutes]
    have h1 : jsTruthy (some (timeString sh sm)) = true := by
      simp [jsTruthy, timeString]
    have h2 : jsTruthy (some (timeString eh em)) = true := by
      simp [jsTruthy, timeString]
    rw [h1, h2]
    simp only [Bool.not_true, Bool.or_self, Bool.false_eq_true, if_false,
      Option.getD_some]
    rw [parseHM_timeString sh sm (by omega) (by omega),
      parseHM_timeString eh em (by omega) (by omega)]
  refine ⟨hmain, ?_, ?_, ?_, ?_⟩
  · rw [hmain]
    rcases le_or_lt 0 ((eh : Int) * 60 + em - ((sh : Int) * 60 + sm)) with h | h
    · rw [max_eq_right h]
    · rw [max_eq_left (by omega), max_eq_left (by omega)]
  · rw [hmain]
    exact le_max_left 0 _
  · intro h
    rw [hmain, max_eq_left (by omega)]
  · intro x
    exact ⟨by simp [computeWorkedMinutes, jsTruthy],
      by simp [computeWorkedMinutes, jsTruthy]⟩

theorem computeWorkedMinutes_formula_witness :
    computeWorkedMinutes (some (timeString 9 0)) (some (timeString 17 0)) 30 =
      max 0 ((((17 : Int) * 60 + 0) - ((9 : Int) * 60 + 0)) - 30) ∧
    computeWorkedMinutes (some (timeString 9 0)) (some (timeString 8 0)) 0 = 0 :=
  ⟨(computeWorkedMinutes_formula 9 0 17 0 30 (by norm_num) (by norm_num)
      (by norm_num) (by norm_num) (by norm_num)).1,
   (computeWorkedMinutes_formula 9 0 8 0 0 (by norm_num) (by norm_num)
      (by norm_num) (by norm_num) (by norm_num)).2.2.2.1 (by norm_num)⟩

/-- C7: `formatMinutes m` is the minus-sign-when-negative, `H`, colon,
two-digit-minutes string described by the specification (witnessed by
`specFormatMinutes`, written from those words), satisfies the three
concrete examples, and re-parsing the output as sign times
`hours * 60 + minutes` recovers `m` for every integer `m`. -/
theorem formatMinutes_spec_and_roundtrip (m : Int) :
    formatMinutes m = specFormatMinutes m ∧
    reparseMinutes (formatMinutes m) = m ∧
    formatMinutes 0 = ("0:00").data ∧
    formatMinutes (-90) = ("-1:30").data ∧
    formatMinutes 135 = ("2:15").data := by
  refine ⟨formatMinutes_eq_spec m, reparse_formatMinutes m, ?_, ?_, ?_⟩
  · rw [formatMinutes]
    norm_num
    rw [padTwo_natDigits 0 (by norm_num), natDigits_lt_ten 0 (by norm_num)]
    decide
  · rw [formatMinutes]
    norm_num
    rw [padTwo_natDigits 30 (by norm_num), natDigits_lt_ten 1 (by norm_num)]
    decide
  · rw [formatMinutes]
    norm_num
    rw [padTwo_natDigits 15 (by norm_num), natDigits_lt_ten 2 (by norm_num)]
    decide

/-- C5: `computeLeaveStats` returns exactly the entitlement, taken and
remaining figures of the specification, with the documented defaults read
field by field (`hoursPerDay = 8`, `baseDays = 25`, others 0) when absent,
and matches the worked example (30 days / 242 hours entitlement, 12 hours
taken = 1.5 days, 230 hours = 28.75 days remaining). -/
theorem computeLeaveStats_spec (balance : Option V2LeaveBalance)
    (entries : List V2LeaveEntry) :
    (computeLeaveStats balance entries).totalEntitlementDays =
      ((balance.bind fun b => b.base_days).getD 25) +
        ((balance.bind fun b => b.purchased_days).getD 0) ∧
    (computeLeaveStats balance entries).totalEntitlementHours =
      (computeLeaveStats balance entries).totalEntitlementDays *
          ((balance.bind fun b => b.hours_per_day).getD 8) +
        ((balance.bind fun b => b.carry_over_hours).getD 0) +
        ((balance.bind fun b => b.manual_adjustment_hours).getD 0) ∧
    (computeLeaveStats balance entries).takenHours =
      (entries.map (fun e => e.hours.getD 0)).sum ∧
    (computeLeaveStats balance entries).takenDays =
      (computeLeaveStats balance entries).takenHours /
        ((balance.bind fun b => b.hours_per_day).getD 8) ∧
    (computeLeaveStats balance entries).remainingHours =
      (computeLeaveStats balance entries).totalEntitlementHours -
        (computeLeaveStats balance entries).takenHours ∧
    (computeLeaveStats balance entries).remainingDays =
      (computeLeaveStats balance entries).remainingHours /
        ((balance.bind fun b => b.hours_per_day).getD 8) ∧
    computeLeaveStats (some ⟨some 8, some 25, some 5, some 4, some (-2)⟩)
      [⟨("2024-07-01").data, some 8, none⟩, ⟨("2024-07-02").data, some 4, none⟩] =
      ⟨242, 12, 230, 30, 1.5, 28.75⟩ := by
  refine ⟨rfl, rfl, ?_, rfl, rfl, rfl, ?_⟩
  · simp [computeLeaveStats, foldl_add_eq_sum]
  · simp only [computeLeaveStats, LeaveStats.mk.injEq]
    norm_num

/-- C10: the defaults of `computeLeaveStats` apply field by field on a
present balance record whose individual fields are null (8, 25, 0, 0, 0
respectively), a null `hours_per_day` still divides by 8, and an entry with
null hours contributes nothing to the taken total. -/
theorem computeLeaveStats_fieldwise (b : V2LeaveBalance)
    (entries : List V2LeaveEntry) :
    (b.hours_per_day = none →
      computeLeaveStats (some b) entries =
        computeLeaveStats (some { b with hours_per_day := some 8 }) entries ∧
      (computeLeaveStats (some b) entries).takenDays =
        (computeLeaveStats (some b) entries).takenHours / 8 ∧
      (computeLeaveStats (some b) entries).remainingDays =
        (computeLeaveStats (some b) entries).remainingHours / 8) ∧
    (b.base_days = none →
      computeLeaveStats (some b) entries =
        computeLeaveStats (some { b with base_days := some 25 }) entries) ∧
    (b.purchased_days = none →
      computeLeaveStats (some b) entries =
        computeLeaveStats (some { b with purchased_days := some 0 }) entries) ∧
    (b.carry_over_hours = none →
      computeLeaveStats (some b) entries =
        computeLeaveStats (some { b with carry_over_hours := some 0 }) entries) ∧
    (b.manual_adjustment_hours = none →
      computeLeaveStats (some b) entries =
        computeLeaveStats (some { b with manual_adjustment_hours := some 0 }) entries) ∧
    (∀ e rest, e.hours = none →
      computeLeaveStats (some b) (e :: rest) = computeLeaveStats (some b) rest) := by
  refine ⟨fun h => ⟨?_, ?_, ?_⟩, fun h => ?_, fun h => ?_, fun h => ?_, fun h => ?_,
    fun e rest h => ?_⟩ <;>
    simp [computeLeaveStats, h]

theorem computeLeaveStats_fieldwise_witness :
    computeLeaveStats (some ⟨none, none, none, none, none⟩) [] =
      computeLeaveStats (some ⟨some 8, none, none, none, none⟩) [] ∧
    (computeLeaveStats (some ⟨none, none, none, none, none⟩) []).takenDays =
      (computeLeaveStats (some ⟨none, none, none, none, none⟩) []).takenHours / 8 ∧
    computeLeaveStats (some ⟨none, none, none, none, none⟩) [] =
      computeLeaveStats (some ⟨none, some 25, none, none, none⟩) [] ∧
    computeLeaveStats (some ⟨none, none, none, none, none⟩)
        [⟨("2024-07-01").data, none, none⟩] =
      computeLeaveStats (some ⟨none, none, none, none, none⟩) [] :=
  ⟨((computeLeaveStats_fieldwise ⟨none, none, none, none, none⟩ []).1 rfl).1,
   ((computeLeaveStats_fieldwise ⟨none, none, none, none, none⟩ []).1 rfl).2.1,
   (computeLeaveStats_fieldwise ⟨none, none, none, none, none⟩ []).2.1 rfl,
   (computeLeaveStats_fieldwise ⟨none, none, none, none, none⟩ []).2.2.2.2.2
     ⟨("2024-07-01").data, none, none⟩ [] rfl⟩

/-- C6: the per-day delta is `null` exactly when no row with a start or end
time exists for the date (absent row, or both fields empty); otherwise it
is the worked minutes minus the norm of the ISO weekday.  The unknown state
is a distinguished `none`, never coerced to 0. -/
theorem deltaForDate_tristate (rows : JStr → Option RowState) (ds : JStr)
    (isoDay : Int) :
    (deltaForDate rows ds isoDay = none ↔
      rows ds = none ∨ ∃ r, rows ds = some r ∧ r.start = [] ∧ r.stop = []) ∧
    (∀ r, rows ds = some r → ¬(r.start = [] ∧ r.stop = []) →
      deltaForDate rows ds isoDay =
        some (computeWorkedMinutes (jsOrNull r.start) (jsOrNull r.stop)
          (jsParseIntOr0 r.breakMin) - normMinutes isoDay)) := by
  cases h : rows ds with
  | none =>
    refine ⟨by simp [deltaForDate, h], ?_⟩
    intro r hr
    exact Option.noConfusion hr
  | some r =>
    by_cases hse : (r.start.isEmpty && r.stop.isEmpty) = true
    · have hb : r.start = [] ∧ r.stop = [] := by
        have h12 : r.start.isEmpty = true ∧ r.stop.isEmpty = true := by simpa using hse
        exact ⟨List.isEmpty_iff.mp h12.1, List.isEmpty_iff.mp h12.2⟩
      refine ⟨iff_of_true (by simp [deltaForDate, h, hse]) (Or.inr ⟨r, rfl, hb⟩), ?_⟩
      intro r0 hr0 hne
      injection hr0 with hr0
      subst hr0
      exact absurd hb hne
    · have hnb : ¬(r.start = [] ∧ r.stop = []) := by
        intro hb
        exact hse (by simp [hb.1, hb.2])
      refine ⟨iff_of_false (by simp [deltaForDate, h, hse]) ?_, ?_⟩
      · rintro (hnone | ⟨r0, hr0, hb0⟩)
        · exact Option.noConfusion hnone
        · injection hr0 with hr0
          subst hr0
          exact hnb hb0
      · intro r0 hr0 hne
        injection hr0 with hr0
        subst hr0
        simp [deltaForDate, h, hse]

theorem deltaForDate_tristate_witness :
    deltaForDate
      (fun ds => if ds = ("2024-01-01").data then
        some ⟨("09:00").data, ("17:00").data, ("30").data, [], false, false⟩ else none)
      (("2024-01-01").data) 1 =
      some (computeWorkedMinutes (jsOrNull (("09:00").data))
        (jsOrNull (("17:00").data)) (jsParseIntOr0 (("30").data)) - normMinutes 1) ∧
    deltaForDate
      (fun ds => if ds = ("2024-01-01").data then
        some ⟨("09:00").data, ("17:00").data, ("30").data, [], false, false⟩ else none)
      (("2024-01-02").data) 2 = none :=
  ⟨(deltaForDate_tristate _ _ 1).2
      ⟨("09:00").data, ("17:00").data, ("30").data, [], false, false⟩
      (by decide) (by decide),
   (deltaForDate_tristate _ _ 2).1.mpr (Or.inl (by decide))⟩

/-- The single day of the zero-worked-entry example week. -/
def daysZeroSpan : List DayCal :=
  [⟨("2024-01-01").data, ("2024-01").data, ("01").data, 1⟩]

/-- The aggregated week `yearByWeek` produces for the zero-worked-entry
example. -/
def aggZeroSpan : WeekAgg :=
  ⟨("2024-01").data, ("01").data, [⟨("2024-01-01").data, 0, 540⟩], 0, 540, none, false⟩

/-- The aggregated week `yearByWeek` produces for the Monday-at-norm
example. -/
def aggMondayWeek : WeekAgg :=
  ⟨("2024-01").data, ("01").data,
   [⟨("2024-01-01").data, 540, 540⟩, ⟨("2024-01-02").data, 0, 540⟩,
    ⟨("2024-01-03").data, 0, 540⟩, ⟨("2024-01-04").data, 0, 540⟩,
    ⟨("2024-01-05").data, 0, 240⟩],
   540, 2400, some (-1860), true⟩

/-- Week-view rows with a single Monday entry worked exactly at the
540-minute norm. -/
def rowsMondayNorm (ds : JStr) : Option RowState :=
  if ds = ("2024-01-01").data then
    some ⟨("09:00").data, ("18:00").data, ("0").data, [], false, false⟩
  else none

/-- The (date, ISO weekday) pairs of the Monday-to-Friday week days. -/
def weekDaysMonFri : List (JStr × Int) :=
  [((("2024-01-01").data), 1), ((("2024-01-02").data), 2), ((("2024-01-03").data), 3),
   ((("2024-01-04").data), 4), ((("2024-01-05").data), 5)]

/-- C3: each weekly aggregate sums `totalWorked` over the worked minutes of
its days (a day without a log contributes 0 worked but its full norm, a day
with a log contributes its computed worked minutes), sums `totalNorm` over
all its days, reports `weekDelta = totalWorked - totalNorm` on weeks with
entries; a week with an entry only on Monday worked exactly at the
540-minute norm has week delta -1860. -/
theorem yearByWeek_weekDelta (logMap : JStr → Option V2WorkLog) (days : List DayCal) :
    (∀ w ∈ yearByWeek logMap days,
      w.totalWorked = (w.days.map (fun r => r.worked)).sum ∧
      w.totalNorm = (w.days.map (fun r => r.norm)).sum ∧
      (w.hasEntries = true → w.delta = some (w.totalWorked - w.totalNorm)) ∧
      (∀ r ∈ w.days, ∃ d ∈ days, r = mkDayRec logMap d)) ∧
    (∀ d : DayCal, logMap d.ds = none →
      mkDayRec logMap d = ⟨d.ds, 0, normMinutes d.isoDay⟩) ∧
    (∀ (d : DayCal) (log : V2WorkLog), logMap d.ds = some log →
      mkDayRec logMap d =
        ⟨d.ds, computeWorkedMinutes log.start_time log.end_time log.break_minutes,
          normMinutes d.isoDay⟩) ∧
    (∀ (rows : JStr → Option RowState) (weekDays : List (JStr × Int)),
      weekDelta rows weekDays = weekWorked rows weekDays - weekNorm weekDays) ∧
    (∀ (rows : JStr → Option RowState) (ds : JStr), rows ds = none →
      workedForDate rows ds = 0) ∧
    (yearByWeek mapMondayNorm daysOneWeek).map (fun w => w.delta) = [some (-1860)] ∧
    weekDelta rowsMondayNorm weekDaysMonFri = -1860 := by
  refine ⟨?_, ?_, ?_, fun _ _ => rfl, ?_, by decide, by decide⟩
  · intro w hw
    obtain ⟨h1, h2, _, h4, h5⟩ := yearByWeek_spec logMap days w hw
    exact ⟨h1, h2, fun hh => by rw [h4, if_pos hh], h5⟩
  · intro d hd
    simp [mkDayRec, hd]
  · intro d log hd
    simp [mkDayRec, hd]
  · intro rows ds hd
    simp [workedForDate, hd]

theorem yearByWeek_weekDelta_witness :
    aggMondayWeek.delta = some (aggMondayWeek.totalWorked - aggMondayWeek.totalNorm) ∧
    mkDayRec mapMondayNorm ⟨("2024-01-02").data, ("2024-01").data, ("01").data, 2⟩
      = ⟨("2024-01-02").data, 0, normMinutes 2⟩ ∧
    mkDayRec mapMondayNorm ⟨("2024-01-01").data, ("2024-01").data, ("01").data, 1⟩
      = ⟨("2024-01-01").data,
          computeWorkedMinutes logAtNorm.start_time logAtNorm.end_time
            logAtNorm.break_minutes,
          normMinutes 1⟩ ∧
    workedForDate rowsMondayNorm (("2024-01-02").data) = 0 :=
  ⟨((yearByWeek_weekDelta mapMondayNorm daysOneWeek).1 aggMondayWeek
      (by decide)).2.2.1 rfl,
   (yearByWeek_weekDelta mapMondayNorm daysOneWeek).2.1 _ (by decide),
   (yearByWeek_weekDelta mapMondayNorm daysOneWeek).2.2.1 _ logAtNorm (by decide),
   (yearByWeek_weekDelta mapMondayNorm daysOneWeek).2.2.2.2.1 rowsMondayNorm
     (("2024-01-02").data) (by decide)⟩

/-- C2: the running cumulative balance at week index `i` is the carry-over
plus the sum, over the first `i + 1` buckets, of the week delta for weeks
with entries and 0 for weeks without; a week without entries leaves the
cumulative value unchanged; with carry-over 120 and week deltas +60 and -30
the sequence is [180, 150]. -/
theorem cumulativeByWeek_spec :
    (∀ (logMap : JStr → Option V2WorkLog) (days : List DayCal) (c : Int) (i : Nat)
      (h : i < (cumulativeByWeek c (yearByWeek logMap days)).length),
      (cumulativeByWeek c (yearByWeek logMap days))[i] =
        c + (((yearByWeek logMap days).take (i + 1)).map
          (fun w => if w.hasEntries = true then w.totalWorked - w.totalNorm else 0)).sum) ∧
    (∀ (logMap : JStr → Option V2WorkLog) (days : List DayCal) (c : Int) (i : Nat)
      (h1 : i + 1 < (cumulativeByWeek c (yearByWeek logMap days)).length)
      (h2 : i < (cumulativeByWeek c (yearByWeek logMap days)).length)
      (h3 : i + 1 < (yearByWeek logMap days).length),
      ((yearByWeek logMap days)[i + 1]).hasEntries = false →
      (cumulativeByWeek c (yearByWeek logMap days))[i + 1] =
        (cumulativeByWeek c (yearByWeek logMap days))[i]) ∧
    cumulativeByWeek 120 (yearByWeek mapTwoWeeks daysTwoWeeks) = [180, 150] := by
  refine ⟨?_, ?_, by decide⟩
  · intro logMap days c i h
    rw [cumulativeByWeek_getElem c _ i h]
    congr 1
    refine congrArg List.sum (List.map_congr_left ?_)
    intro w hw
    have hmem : w ∈ yearByWeek logMap days := List.take_subset _ _ hw
    obtain ⟨_, _, _, h4, _⟩ := yearByWeek_spec logMap days w hmem
    rw [h4]
    cases hE : w.hasEntries <;> simp
  · intro logMap days c i h1 h2 h3 hE
    have hW := yearByWeek_spec logMap days ((yearByWeek logMap days)[i + 1])
      (List.getElem_mem h3)
    have hdelta : ((yearByWeek logMap days)[i + 1]).delta = none := by
      rw [hW.2.2.2.1, hE]
      simp
    rw [cumulativeByWeek_getElem c _ _ h1, cumulativeByWeek_getElem c _ _ h2]
    congr 1
    rw [List.take_succ, List.getElem?_eq_getElem h3, List.map_append, List.sum_append]
    simp [hdelta]

theorem cumulativeByWeek_spec_witness :
    (cumulativeByWeek 120 (yearByWeek mapTwoWeeks daysTwoWeeks)).get ⟨0, by decide⟩ =
      120 + (((yearByWeek mapTwoWeeks daysTwoWeeks).take 1).map
        (fun w => if w.hasEntries = true then w.totalWorked - w.totalNorm else 0)).sum ∧
    (cumulativeByWeek 120 (yearByWeek mapGap daysTwoWeeks)).get ⟨1, by decide⟩ =
      (cumulativeByWeek 120 (yearByWeek mapGap daysTwoWeeks)).get ⟨0, by decide⟩ := by
  constructor
  · rw [List.get_eq_getElem]
    exact cumulativeByWeek_spec.1 mapTwoWeeks daysTwoWeeks 120 0 (by decide)
  · rw [List.get_eq_getElem, List.get_eq_getElem]
    exact cumulativeByWeek_spec.2.1 mapGap daysTwoWeeks 120 0 (by decide) (by decide)
      (by decide) (by decide)

/-- C1 (amended): in the yearly aggregate a week counts as has-entries
exactly when at least one of its days has computed worked minutes greater
than 0; a week that does not has its delta reported as unknown and its
total worked rendered as the no-data dash.  A week whose only entries have
zero worked minutes therefore counts as no-data, not as has-entries. -/
theorem yearByWeek_hasEntries_iff (logMap : JStr → Option V2WorkLog)
    (days : List DayCal) :
    ∀ w ∈ yearByWeek logMap days,
      (w.hasEntries = true ↔ ∃ r ∈ w.days, 0 < r.worked) ∧
      (w.hasEntries = false → w.delta = none ∧ displayTotalWorked w = ['—']) ∧
      ((∀ r ∈ w.days, r.worked = 0) → w.hasEntries = false) := by
  intro w hw
  obtain ⟨_, _, h3, h4, _⟩ := yearByWeek_spec logMap days w hw
  refine ⟨h3, fun hf => ⟨?_, ?_⟩, fun hz => ?_⟩
  · rw [h4, hf]
    simp
  · simp [displayTotalWorked, hf]
  · cases hE : w.hasEntries
    · rfl
    · obtain ⟨r, hr, hpos⟩ := h3.mp hE
      have := hz r hr
      omega

theorem yearByWeek_hasEntries_iff_witness :
    aggZeroSpan.delta = none ∧ displayTotalWorked aggZeroSpan = ['—'] :=
  (yearByWeek_hasEntries_iff mapZeroSpan daysZeroSpan aggZeroSpan (by decide)).2.1 rfl

/-- C1 counterexample: on the concrete input whose only entry has a logged
start and end time but zero worked minutes, the yearly aggregate does NOT
count the week as has-entries, refuting the claim that has-entries holds
exactly when some day has an entry with a logged start or end time. -/
theorem yearByWeek_hasEntries_cex :
    ¬ (∀ w ∈ yearByWeek mapZeroSpan daysZeroSpan,
      (w.hasEntries = true ↔
        w.days.any (fun r => entryHasStartOrEnd (mapZeroSpan r.date)) = true)) := by
  decide
